import Mathlib

/-!
# A verification of the PDF toolkit's page operations

A shallow embedding of `src/utils/pdf_operations.py`: page-range parsing,
page extraction, merging, deletion, splitting, and the Ghostscript
command-line construction for compression, together with theorems about
them.  A PDF document is modelled as the ordered list of its page objects
(an arbitrary type `α`); the filesystem, where an operation consults it, is
a map from paths to the page list of the document stored there (`none` when
the path does not exist).
-/

namespace PdfOps

/-- Python `range(a, b)` over integers: the list `[a, a+1, ..., b-1]`,
empty when `b ≤ a`. -/
def pyRange (a b : Int) : List Int :=
  (List.range (b - a).toNat).map (fun (k : Nat) => a + (k : Int))

/-- Python sequence indexing `l[i]`, as PyPDF2's page list implements it:
a negative index counts from the end of the list; an index that is still
out of range raises `IndexError`, modelled as `none`. -/
def pyListGet {α : Type} (l : List α) (i : Int) : Option α :=
  if i < 0 then
    if (l.length : Int) + i < 0 then none
    else l.get? ((l.length : Int) + i).toNat
  else l.get? i.toNat

/-- The whitespace characters Python's `str.strip()` and `int()` remove
(the ASCII ones; stripping of other Unicode space characters is not
modelled, no input in this development depends on it). -/
def pyIsSpace (c : Char) : Bool :=
  c = ' ' || c = '\t' || c = '\n' || c = '\r' || c = '\x0b' || c = '\x0c'

/-- Splitting a character list on every occurrence of `c`, keeping empty
pieces — the semantics of Python's `str.split(sep)` with a one-character
separator (`""` yields `[""]`, `"-"` yields `["", ""]`). -/
def splitOnCharList (c : Char) : List Char → List (List Char)
  | [] => [[]]
  | x :: xs =>
    match splitOnCharList c xs with
    | [] => [[]]
    | h :: t => if x = c then [] :: h :: t else (x :: h) :: t

/-- Python `s.split(sep)` for a one-character separator (the source only
splits on `','` and `'-'`). -/
def pySplitOn (s : String) (sep : Char) : List String :=
  (splitOnCharList sep s.data).map String.mk

/-- Python `s.strip()`: remove leading and trailing whitespace. -/
def pyStrip (s : String) : String :=
  String.mk (((s.data.dropWhile pyIsSpace).reverse.dropWhile pyIsSpace).reverse)

/-- The numeric value of a digit string, most significant digit first. -/
def digitsVal (l : List Char) : Nat :=
  l.foldl (fun n c => 10 * n + (c.toNat - 48)) 0

/-- A nonempty all-digit character list parses to its value; anything else
is rejected. -/
def pyNat (core : List Char) : Option Nat :=
  if !core.isEmpty && core.all Char.isDigit then some (digitsVal core) else none

/-- Python `int(s)` on a string: surrounding whitespace is stripped, an
optional single leading `+` or `-` sign precedes the digits, and the rest
must be a nonempty digit string.  (CPython additionally accepts digit-group
underscores and non-ASCII digits; no input in this development depends on
them.) -/
def pyInt (s : String) : Option Int :=
  match (pyStrip s).data with
  | '-' :: core => (pyNat core).map (fun n => -(n : Int))
  | '+' :: core => (pyNat core).map (fun n => (n : Int))
  | core => (pyNat core).map (fun n => (n : Int))

/-- `parse_page_ranges` (pdf_operations.py lines 197-203): split the input
on commas and strip whitespace from every token.  No other validation
happens here; the function is total. -/
def parse_page_ranges (input_str : String) : List String :=
  (pySplitOn input_str ',').map pyStrip

/-- The per-token parse performed inside `extract_pages` and `delete_pages`
(`start, end = map(int, page_range.split('-'))`): the token must split on
`-` into exactly two parts, each accepted by Python `int`; any other shape
raises `ValueError`, modelled as `none`. -/
def parseToken (t : String) : Option (Int × Int) :=
  match pySplitOn t '-' with
  | [a, b] => do
    let s ← pyInt a
    let e ← pyInt b
    pure (s, e)
  | _ => none

/-- The spec's side condition for the parser: the token "can be split into
exactly two integer parts". -/
def TwoIntParts (t : String) : Prop :=
  ∃ a b, pySplitOn t '-' = [a, b] ∧ (pyInt a).isSome ∧ (pyInt b).isSome

/-- The body of `extract_pages`' inner loop (pdf_operations.py lines 90-95)
for one 0-indexed `page_num`: when `page_num < len(reader.pages)` the page
`reader.pages[page_num]` is appended to the writer (Python indexing, so a
negative `page_num` counts from the end and can still raise `IndexError`,
modelled as `none`); otherwise a warning is printed and the page number is
skipped. -/
def extractStep {α : Type} (pages : List α) (acc : List α) (page_num : Int) :
    Option (List α) :=
  if page_num < (pages.length : Int) then
    match pyListGet pages page_num with
    | some p => some (acc ++ [p])
    | none => none
  else some acc

/-- `extract_pages`' double loop (pdf_operations.py lines 88-95) over
already-parsed ranges: for each range `(start, end)` in input order, for
each `page_num` in `range(start-1, end)`, run `extractStep`.  The result is
the writer's final page list, or `none` when an uncaught `IndexError`
aborted the loop (in which case no output file is written). -/
def extractRanges {α : Type} (pages : List α) (ranges : List (Int × Int)) :
    Option (List α) :=
  (ranges.flatMap (fun r => pyRange (r.1 - 1) r.2)).foldlM (extractStep pages) []

/-- The spec's description of extraction: the concatenation, over the
ranges in input order, of the source pages with 1-indexed numbers
`start..end` (0-indexed `start-1..end-1`) that exist in the document, in
page order. -/
def extractSpec {α : Type} (pages : List α) (ranges : List (Int × Int)) : List α :=
  ranges.flatMap (fun r =>
    (pyRange (r.1 - 1) r.2).filterMap (fun i =>
      if 0 ≤ i ∧ i < (pages.length : Int) then pages.get? i.toNat else none))

/-- `merge_pdfs`' copy loop (pdf_operations.py lines 117-125): input files
are visited in the given order; a path that does not exist prints a warning
and is skipped; all pages of each existing file are appended to the single
writer in file order. -/
def merge_pdfs {α : Type} (fs : String → Option (List α))
    (input_files : List String) : List α :=
  input_files.foldl (fun writer file =>
    match fs file with
    | none => writer
    | some reader => writer ++ reader) []

/-- The spec's description of merging: the concatenation, in the given file
order, of all pages of each file that exists. -/
def mergeSpec {α : Type} (fs : String → Option (List α))
    (input_files : List String) : List α :=
  (input_files.filter (fun f => (fs f).isSome)).flatMap (fun f => (fs f).getD [])

/-- `delete_pages` (pdf_operations.py lines 144-154) over already-parsed
ranges: the exclusion set is the union of `range(start-1, end)` over the
ranges (membership in the flattened list models the Python set); every
0-indexed page of the source that is not in it is appended, in order. -/
def delete_pages {α : Type} (pages : List α) (ranges : List (Int × Int)) : List α :=
  let pages_to_exclude := ranges.flatMap (fun r => pyRange (r.1 - 1) r.2)
  (List.range pages.length).filterMap (fun (page_num : Nat) =>
    if (page_num : Int) ∈ pages_to_exclude then none else pages.get? page_num)

/-- The spec's description of deletion: the source pages, in original
order, whose 0-indexed page number is not in the union of the given
1-indexed ranges. -/
def deleteSpec {α : Type} (pages : List α) (ranges : List (Int × Int)) : List α :=
  (pages.enum.filter (fun ip =>
    decide (¬ ∃ r ∈ ranges, r.1 ≤ (ip.1 : Int) + 1 ∧ (ip.1 : Int) + 1 ≤ r.2))).map
    Prod.snd

/-- `split_pdf` (pdf_operations.py lines 169-189) on the page list and the
input's base name: `num_parts = (total_pages + pages_per_part - 1) //
pages_per_part` (Python floor division, whose divisor being zero raises
`ZeroDivisionError`, modelled as `none`); part `part_num` (0-based)
collects the pages at indices `range(part_num*pp, min((part_num+1)*pp,
total_pages))` and is written to `"<base>_part<part_num+1>.pdf"`. -/
def split_pdf {α : Type} (pages : List α) (pages_per_part : Int)
    (base_name : String) : Option (List (String × List α)) :=
  if pages_per_part = 0 then none
  else
    let total_pages : Int := (pages.length : Int)
    let num_parts := Int.fdiv (total_pages + pages_per_part - 1) pages_per_part
    (List.range num_parts.toNat).mapM (fun (part_num : Nat) =>
      let start_page := (part_num : Int) * pages_per_part
      let end_page := min (((part_num : Int) + 1) * pages_per_part) total_pages
      do
        let part ← (pyRange start_page end_page).mapM (fun n => pyListGet pages n)
        pure (base_name ++ "_part" ++ toString (part_num + 1) ++ ".pdf", part))

/-- The preset table `quality_map` (pdf_operations.py lines 19-25). -/
def quality_map (power : Int) : Option String :=
  if power = 1 then some "/prepress"
  else if power = 2 then some "/printer"
  else if power = 3 then some "/ebook"
  else if power = 4 then some "/screen"
  else if power = 5 then some "/ebook"
  else none

/-- The extra Ghostscript flags spliced in at `gs_cmd[3:3]` for power 5
(pdf_operations.py lines 46-55). -/
def power5Flags : List String :=
  ["-dDetectDuplicateImages=true", "-dColorImageResolution=150",
   "-dGrayImageResolution=150", "-dMonoImageResolution=150",
   "-dDownsampleColorImages=true", "-dDownsampleGrayImages=true",
   "-dDownsampleMonoImages=true"]

/-- `compress_pdf`'s command-line construction (pdf_operations.py lines
26-55): a power outside the table falls back to 3 (with a printed
warning); power 5 splices `power5Flags` in before index 3, the
`-dPDFSETTINGS` entry. -/
def compress_cmd (input_pdf output_pdf : String) (power : Int) : List String :=
  let power2 := if (quality_map power).isNone then 3 else power
  let quality := (quality_map power2).getD "/ebook"
  let gs_cmd :=
    ["gs", "-sDEVICE=pdfwrite", "-dCompatibilityLevel=1.5",
     "-dPDFSETTINGS=" ++ quality, "-dNOPAUSE", "-dQUIET", "-dBATCH",
     "-dAutoRotatePages=/None", "-sOutputFile=" ++ output_pdf, input_pdf]
  if power2 = 5 then gs_cmd.take 3 ++ power5Flags ++ gs_cmd.drop 3 else gs_cmd

/-! ## Operation boundaries

Every operation wraps its whole body in `try: ... except ...:` and prints a
human-readable message; nothing is returned or re-raised.  The bodies are
modelled as `Except String` computations (an exception caught at the
boundary is the `Except.error` case) and the operations themselves as total
functions returning the displayed message string. -/

/-- The shared `except Exception as e: print(f"Error: ...")` boundary of
extract/merge/delete/split (pdf_operations.py lines 100-101, 130-131,
159-160, 194-195). -/
def runBoundary {α : Type} (success : String) (body : Except String α) : String :=
  match body with
  | Except.ok _ => success
  | Except.error e => "Error: " ++ e

/-- `extract_pages`' body (pdf_operations.py lines 82-99): open the source
(a missing path raises), parse every token (line 85 parses them all up
front for the progress total), run the copy loop, and write the output. -/
def extract_body {α : Type} (fs : String → Option (List α)) (input_pdf : String)
    (page_ranges : List String) : Except String (List α) := do
  let pages ← match fs input_pdf with
    | some p => Except.ok p
    | none => Except.error ("No such file or directory: " ++ input_pdf)
  let parsed ← page_ranges.mapM (fun r =>
    match parseToken r with
    | some p => Except.ok p
    | none => Except.error ("invalid page range token: " ++ r))
  match extractRanges pages parsed with
  | some out => Except.ok out
  | none => Except.error "sequence index out of range"

/-- The message `extract_pages` displays (success line 99, boundary lines
100-101). -/
def extract_run {α : Type} (fs : String → Option (List α))
    (input_pdf output_pdf : String) (page_ranges : List String) : String :=
  runBoundary ("Success: Pages extracted to " ++ output_pdf)
    (extract_body fs input_pdf page_ranges)

/-- The message `merge_pdfs` displays (pdf_operations.py line 129): in this
model a merge always reaches its success message, since missing inputs are
skipped rather than raised. -/
def merge_run {α : Type} (fs : String → Option (List α))
    (input_files : List String) (output_pdf : String) : String :=
  runBoundary ("Success: Files merged into " ++ output_pdf)
    (Except.ok (merge_pdfs fs input_files))

/-- `delete_pages`' body (pdf_operations.py lines 140-157): open the
source, parse every token (lines 145-147, before the copy loop), filter the
pages, write the output. -/
def delete_body {α : Type} (fs : String → Option (List α)) (input_pdf : String)
    (page_ranges_to_delete : List String) : Except String (List α) := do
  let pages ← match fs input_pdf with
    | some p => Except.ok p
    | none => Except.error ("No such file or directory: " ++ input_pdf)
  let parsed ← page_ranges_to_delete.mapM (fun r =>
    match parseToken r with
    | some p => Except.ok p
    | none => Except.error ("invalid page range token: " ++ r))
  Except.ok (delete_pages pages parsed)

/-- The message `delete_pages` displays (success line 158, boundary lines
159-160). -/
def delete_run {α : Type} (fs : String → Option (List α))
    (input_pdf output_pdf : String) (page_ranges_to_delete : List String) : String :=
  runBoundary ("Success: Pages deleted, saved to " ++ output_pdf)
    (delete_body fs input_pdf page_ranges_to_delete)

/-- `split_pdf`'s body (pdf_operations.py lines 168-189): open the source
(a missing path raises), then build and write the parts; a zero
`pages_per_part` raises `ZeroDivisionError` at line 171. -/
def split_body {α : Type} (fs : String → Option (List α)) (input_pdf : String)
    (pages_per_part : Int) (base_name : String) :
    Except String (List (String × List α)) := do
  let pages ← match fs input_pdf with
    | some p => Except.ok p
    | none => Except.error ("No such file or directory: " ++ input_pdf)
  match split_pdf pages pages_per_part base_name with
  | some parts => Except.ok parts
  | none => Except.error "integer division or modulo by zero"

/-- The message `split_pdf` displays (success lines 191-193, boundary lines
194-195). -/
def split_run {α : Type} (fs : String → Option (List α)) (input_pdf : String)
    (pages_per_part : Int) (base_name : String) : String :=
  runBoundary "Success: PDF split into parts"
    (split_body fs input_pdf pages_per_part base_name)

/-- The size-report `compress_pdf` prints on success (pdf_operations.py
line 65); the file sizes are abstracted to naturals (KB), the float
percentage formatting is not modelled. -/
def compress_report (original_size new_size : Nat) : String :=
  "Success: File compressed from " ++ toString original_size ++ " KB to " ++
    toString new_size ++ " KB"

/-- `compress_pdf`'s boundary (pdf_operations.py lines 30-73): a missing
input raises `FileNotFoundError` at line 32, printed plainly at line 71; a
missing output after the subprocess raises at line 67, printed the same
way; otherwise the size report is printed.  `input_size` is the size of the
input when it exists; `output_size` the size of the output once the
Ghostscript subprocess has exited, `none` when Ghostscript did not create
it. -/
def compress_run (input_size output_size : Option Nat) (input_pdf : String) : String :=
  match input_size with
  | none => "Error: Input file " ++ input_pdf ++ " does not exist"
  | some orig =>
    match output_size with
    | some ns => compress_report orig ns
    | none => "Error: Output file was not created"

/-! ## Basic lemmas about the Python primitives -/

theorem mem_pyRange {a b i : Int} : i ∈ pyRange a b ↔ a ≤ i ∧ i < b := by
  simp only [pyRange, List.mem_map, List.mem_range]
  constructor
  · rintro ⟨k, hk, rfl⟩
    omega
  · intro h
    exact ⟨(i - a).toNat, by omega, by omega⟩

theorem pyRange_eq_nil {a b : Int} (h : b ≤ a) : pyRange a b = [] := by
  have hz : (b - a).toNat = 0 := by omega
  simp [pyRange, hz]

theorem pyListGet_nonneg {α : Type} (l : List α) {i : Int} (h : 0 ≤ i) :
    pyListGet l i = l.get? i.toNat := by
  simp only [pyListGet, if_neg (by omega : ¬ i < 0)]

/-- `pyRange` between two natural numbers is a `List.range'` of naturals. -/
theorem pyRange_natCast (a b : Nat) :
    pyRange (a : Int) (b : Int) = (List.range' a (b - a)).map (fun (k : Nat) => (k : Int)) := by
  have h : ((b : Int) - (a : Int)).toNat = b - a := by omega
  rw [pyRange, h, List.range'_eq_map_range, List.map_map]
  refine List.map_congr_left (fun k hk => ?_)
  simp only [Function.comp_apply]
  omega

/-- A `filterMap` whose function is `some` of `g` on every element is a
`map`. -/
theorem filterMap_eq_map_of_forall_some {α β : Type} {l : List α}
    {f : α → Option β} {g : α → β} (h : ∀ x ∈ l, f x = some (g x)) :
    l.filterMap f = l.map g := by
  induction l with
  | nil => rfl
  | cons x xs ih =>
    rw [List.filterMap_cons, h x (List.mem_cons_self x xs), List.map_cons,
      ih (fun y hy => h y (List.mem_cons_of_mem x hy))]

/-- A `mapM` over `Option` whose function succeeds with `g` on every
element returns `some` of the `map`. -/
theorem mapM_eq_some_map {α β : Type} {l : List α}
    {f : α → Option β} {g : α → β} (h : ∀ x ∈ l, f x = some (g x)) :
    l.mapM f = some (l.map g) := by
  induction l with
  | nil => rfl
  | cons x xs ih =>
    rw [List.mapM_cons, h x (List.mem_cons_self x xs),
      ih (fun y hy => h y (List.mem_cons_of_mem x hy))]
    rfl

/-- Reading a list at the indices `a, a+1, ..., a+m-1` yields the slice
`(l.drop a).take m`, provided the indices stay in range. -/
theorem range'_filterMap_get {α : Type} (l : List α) :
    ∀ (m a : Nat), a + m ≤ l.length →
      (List.range' a m).filterMap (fun k => l.get? k) = (l.drop a).take m := by
  intro m
  induction m with
  | zero => intro a _; simp
  | succ m ih =>
    intro a h
    have ha : a < l.length := by omega
    rw [List.range'_succ, List.filterMap_cons, List.get?_eq_get ha,
      List.drop_eq_get_cons ha, List.take_succ_cons, ih (a + 1) (by omega)]

/-! ## The extract loop -/

/-- Closed form of the extract loop over nonnegative page numbers: no
`IndexError` can occur, and exactly the in-range pages are appended in
order. -/
theorem foldlM_extractStep {α : Type} (pages : List α) :
    ∀ (nums : List Int) (acc : List α), (∀ i ∈ nums, 0 ≤ i) →
      nums.foldlM (extractStep pages) acc =
        some (acc ++ nums.filterMap (fun i =>
          if i < (pages.length : Int) then pages.get? i.toNat else none)) := by
  intro nums
  induction nums with
  | nil => intro acc _; simp
  | cons i rest ih =>
    intro acc h
    have hi : 0 ≤ i := h i (List.mem_cons_self i rest)
    have hrest : ∀ j ∈ rest, 0 ≤ j := fun j hj => h j (List.mem_cons_of_mem i hj)
    rw [List.foldlM_cons, List.filterMap_cons]
    by_cases hlt : i < (pages.length : Int)
    · have hn : i.toNat < pages.length := by omega
      have hstep : extractStep pages acc i = some (acc ++ [pages.get ⟨i.toNat, hn⟩]) := by
        rw [extractStep, if_pos hlt, pyListGet_nonneg pages hi, List.get?_eq_get hn]
      rw [hstep, if_pos hlt, List.get?_eq_get hn]
      show rest.foldlM (extractStep pages) (acc ++ [pages.get ⟨i.toNat, hn⟩]) = _
      rw [ih (acc ++ [pages.get ⟨i.toNat, hn⟩]) hrest]
      simp
    · have hstep : extractStep pages acc i = some acc := by
        rw [extractStep, if_neg hlt]
      rw [hstep, if_neg hlt]
      show rest.foldlM (extractStep pages) acc = _
      rw [ih acc hrest]

/-- With every range starting at page 1 or later, the extract loop
succeeds and computes exactly the spec's page selection. -/
theorem extractRanges_eq_spec {α : Type} (pages : List α)
    (ranges : List (Int × Int)) (h : ∀ r ∈ ranges, 1 ≤ r.1) :
    extractRanges pages ranges = some (extractSpec pages ranges) := by
  rw [extractRanges]
  have hpos : ∀ i ∈ ranges.flatMap (fun r => pyRange (r.1 - 1) r.2), 0 ≤ i := by
    intro i hi
    rcases List.mem_flatMap.mp hi with ⟨r, hr, hmem⟩
    have := (mem_pyRange.mp hmem).1
    have := h r hr
    omega
  rw [foldlM_extractStep pages _ [] hpos, List.nil_append]
  congr 1
  rw [extractSpec, List.filterMap_flatMap]
  refine List.flatMap_congr (fun r hr => ?_)
  refine List.filterMap_congr (fun i hi => ?_)
  have h0 : 0 ≤ i := by
    have := (mem_pyRange.mp hi).1
    have := h r hr
    omega
  by_cases hlt : i < (pages.length : Int)
  · rw [if_pos hlt, if_pos ⟨h0, hlt⟩]
  · rw [if_neg hlt, if_neg (by tauto)]

/-! ## Claims about parsing -/

/-- Claim C1 (amended): `parse_page_ranges` itself never fails — for every
input string it returns the comma-separated tokens with surrounding
whitespace stripped, whatever their shape.  The check that a token splits
into exactly two integer parts happens later, inside extract/delete: their
per-token parse fails exactly on the tokens that cannot be so split. -/
theorem claim_C1 :
    (∀ s : String, parse_page_ranges s = (pySplitOn s ',').map pyStrip)
    ∧ (∀ t : String, parseToken t = none ↔ ¬ TwoIntParts t) := by
  refine ⟨fun s => rfl, fun t => ?_⟩
  cases h : pySplitOn t '-' with
  | nil => simp [parseToken, h, TwoIntParts]
  | cons a rest =>
    cases rest with
    | nil => simp [parseToken, h, TwoIntParts]
    | cons b rest2 =>
      cases rest2 with
      | nil =>
        simp only [parseToken, h, TwoIntParts]
        cases ha : pyInt a with
        | none => simp [ha]
        | some x =>
          cases hb : pyInt b with
          | none => simp [ha, hb]
          | some y => simp [ha, hb]
      | cons c rest3 => simp [parseToken, h, TwoIntParts]

/-- Counterexample to C1 as stated: the token `abc` cannot be split into
two integer parts, yet `parse_page_ranges` succeeds on it and returns it
unchanged; no failure of any kind occurs in the parser (the rejection
happens only later, in the operations' own token parse). -/
theorem claim_C1_cex :
    parse_page_ranges "abc" = ["abc"] ∧ parseToken "abc" = none
    ∧ ¬ TwoIntParts "abc" := by
  refine ⟨by decide, by decide, ?_⟩
  rintro ⟨a, b, hab, -, -⟩
  have h : pySplitOn "abc" '-' = ["abc"] := by decide
  rw [h] at hab
  simp at hab

/-! ## Claims about extraction -/

/-- Claim C2 (amended): for every source document and every list of ranges
each of which starts at page 1 or later, extract's output is the
concatenation, over the ranges in input order, of the source pages
start..end (1-indexed) that exist in the document, in page order; a
referenced page beyond the document length is skipped with a non-fatal
warning rather than aborting, and overlapping ranges are not deduplicated,
so a page covered by two ranges appears twice in the output. -/
theorem claim_C2 {α : Type} (pages : List α) (ranges : List (Int × Int))
    (h : ∀ r ∈ ranges, 1 ≤ r.1) :
    extractRanges pages ranges = some (extractSpec pages ranges) :=
  extractRanges_eq_spec pages ranges h

/-- Witness for C2 at a concrete input: a 3-page document with the
overlapping ranges 2-3 and 1-4; page 4 is skipped non-fatally, and pages 2
and 3, covered by both ranges, appear twice. -/
theorem claim_C2_witness :
    extractRanges [10, 20, 30] [(2, 3), (1, 4)]
      = some (extractSpec [10, 20, 30] [(2, 3), (1, 4)])
    ∧ extractSpec [10, 20, 30] [(2, 3), (1, 4)] = [20, 30, 10, 20, 30] :=
  ⟨claim_C2 [10, 20, 30] [(2, 3), (1, 4)] (by decide), by decide⟩

/-- Counterexample to C2 as stated: for the range 0-0 on a two-page
document no page numbered 0..0 exists, so the claimed output is empty; but
the code's guard is only `page_num < len(reader.pages)`, so `page_num = -1`
passes it and `reader.pages[-1]` appends the last page (Python negative
indexing) instead of skipping. -/
theorem claim_C2_cex :
    extractRanges [10, 20] [(0, 0)] = some [20]
    ∧ extractSpec [10, 20] [(0, 0)] = []
    ∧ extractRanges [10, 20] [(0, 0)] ≠ some (extractSpec [10, 20] [(0, 0)]) := by
  decide

/-! ## The delete loop -/

/-- Reading a list at every index from `n` on, dropping the indices where
`p` holds, is filtering the enumerated list. -/
theorem filterMap_range'_get_eq_enumFrom {α : Type} (p : Nat → Prop)
    [DecidablePred p] :
    ∀ (l : List α) (n : Nat),
      (List.range' n l.length).filterMap
          (fun k => if p k then none else l.get? (k - n))
      = ((List.enumFrom n l).filter (fun ip => !decide (p ip.1))).map Prod.snd := by
  intro l
  induction l with
  | nil => intro n; simp
  | cons a t ih =>
    intro n
    rw [List.length_cons, List.range'_succ, List.filterMap_cons, List.enumFrom_cons]
    have htail : (List.range' (n + 1) t.length).filterMap
        (fun k => if p k then none else (a :: t).get? (k - n))
        = ((List.enumFrom (n + 1) t).filter (fun ip => !decide (p ip.1))).map Prod.snd := by
      rw [← ih (n + 1)]
      refine List.filterMap_congr (fun k hk => ?_)
      have hge : n + 1 ≤ k := (List.mem_range'_1.mp hk).1
      by_cases hp : p k
      · rw [if_pos hp, if_pos hp]
      · rw [if_neg hp, if_neg hp]
        have : k - n = (k - (n + 1)) + 1 := by omega
        rw [this, List.get?_cons_succ]
    by_cases hp : p n
    · rw [if_pos hp, htail, List.filter_cons]
      simp [hp]
    · rw [if_neg hp, Nat.sub_self, htail, List.filter_cons]
      simp [hp]

/-- The `n = 0` form: reading a list at every index of
`List.range l.length`, dropping the indices where `p` holds, filters the
enumeration. -/
theorem filterMap_range_get_eq_enum {α : Type} (p : Nat → Prop)
    [DecidablePred p] (l : List α) :
    (List.range l.length).filterMap (fun k => if p k then none else l.get? k)
      = (l.enum.filter (fun ip => !decide (p ip.1))).map Prod.snd := by
  have h := filterMap_range'_get_eq_enumFrom p l 0
  rw [List.range_eq_range']
  simpa [List.enum] using h

/-- Claim C3 (first part): delete's output is exactly the source pages, in
original order, whose 0-indexed page number is not in the union of the
given ranges. -/
theorem delete_pages_eq_spec {α : Type} (pages : List α)
    (ranges : List (Int × Int)) :
    delete_pages pages ranges = deleteSpec pages ranges := by
  rw [delete_pages, deleteSpec,
    filterMap_range_get_eq_enum
      (fun k => (k : Int) ∈ ranges.flatMap (fun r => pyRange (r.1 - 1) r.2)) pages]
  congr 1
  refine List.filter_congr (fun ip hip => ?_)
  rw [decide_not, Bool.not_inj_iff, decide_eq_decide]
  rw [List.mem_flatMap]
  constructor
  · rintro ⟨r, hr, hmem⟩
    have h := mem_pyRange.mp hmem
    exact ⟨r, hr, by omega, by omega⟩
  · rintro ⟨r, hr, h1, h2⟩
    exact ⟨r, hr, mem_pyRange.mpr (by omega)⟩

/-- Claim C3: for every source document and every list of ranges to
delete, delete's output is exactly the source pages, in original order,
whose 0-indexed page number is not in the union of the given ranges;
duplicate and out-of-range indices in the exclusion set cause no error.
In particular, for a 10-page document, deleting "3-5" yields a 7-page
output equal to pages 1,2,6,7,8,9,10 in order. -/
theorem claim_C3 :
    (∀ (α : Type) (pages : List α) (ranges : List (Int × Int)),
      delete_pages pages ranges = deleteSpec pages ranges)
    ∧ parse_page_ranges "3-5" = ["3-5"]
    ∧ parseToken "3-5" = some (3, 5)
    ∧ delete_pages [1, 2, 3, 4, 5, 6, 7, 8, 9, 10] [(3, 5)] = [1, 2, 6, 7, 8, 9, 10]
    ∧ delete_pages [1, 2, 3, 4, 5, 6, 7, 8, 9, 10] [(3, 5), (4, 5), (9, 60)]
      = [1, 2, 6, 7, 8] := by
  exact ⟨fun α pages ranges => delete_pages_eq_spec pages ranges,
    by decide, by decide, by decide, by decide⟩

/-! ## Merging -/

/-- The merge loop's accumulator only grows: folding from `writer` appends
the pages of the existing files after `writer`. -/
theorem merge_pdfs_foldl {α : Type} (fs : String → Option (List α)) :
    ∀ (input_files : List String) (writer : List α),
      input_files.foldl (fun w file =>
        match fs file with
        | none => w
        | some reader => w ++ reader) writer
      = writer ++ mergeSpec fs input_files := by
  intro input_files
  induction input_files with
  | nil => intro writer; simp [mergeSpec]
  | cons f rest ih =>
    intro writer
    rw [List.foldl_cons]
    cases hf : fs f with
    | none =>
      rw [ih writer]
      rw [mergeSpec, mergeSpec, List.filter_cons, if_neg (by simp [hf])]
    | some reader =>
      rw [ih (writer ++ reader)]
      rw [mergeSpec, mergeSpec, List.filter_cons, if_pos (by simp [hf]),
        List.flatMap_cons, hf, List.append_assoc]
      rfl

/-- Claim C4: for every list of input paths, merge's output is the
concatenation, in the given file order, of all pages of each file that
exists, each file's pages in their original order; a path that does not
exist is skipped with a warning.  In particular, merging a 3-page file A
and a 2-page file B yields a 5-page output with A's pages first, then
B's. -/
theorem claim_C4 :
    (∀ (α : Type) (fs : String → Option (List α)) (input_files : List String),
      merge_pdfs fs input_files = mergeSpec fs input_files)
    ∧ merge_pdfs
        (fun p => if p = "A.pdf" then some [1, 2, 3]
          else if p = "B.pdf" then some [4, 5] else none)
        ["A.pdf", "B.pdf"]
      = [1, 2, 3, 4, 5] := by
  refine ⟨fun α fs input_files => ?_, by decide⟩
  rw [merge_pdfs, merge_pdfs_foldl fs input_files [], List.nil_append]

/-- Claim C10: for every input list in which no listed file exists
(including the empty list), merge still produces a zero-page output
document, written to the destination, and reports success rather than
failing. -/
theorem claim_C10 {α : Type} (fs : String → Option (List α))
    (input_files : List String) (output_pdf : String)
    (h : ∀ f ∈ input_files, fs f = none) :
    merge_pdfs fs input_files = []
    ∧ merge_run fs input_files output_pdf
      = "Success: Files merged into " ++ output_pdf := by
  constructor
  · rw [merge_pdfs, merge_pdfs_foldl fs input_files [], List.nil_append, mergeSpec]
    have hfil : input_files.filter (fun f => (fs f).isSome) = [] := by
      rw [List.filter_eq_nil]
      intro f hf
      simp [h f hf]
    rw [hfil, List.flatMap_nil]
  · rfl

/-- Witness for C10: merging a list of two paths neither of which exists
yields the empty document and the success message. -/
theorem claim_C10_witness :
    merge_pdfs (fun _ => (none : Option (List Nat))) ["a.pdf", "b.pdf"] = []
    ∧ merge_run (fun _ => (none : Option (List Nat))) ["a.pdf", "b.pdf"] "out.pdf"
      = "Success: Files merged into " ++ "out.pdf" :=
  claim_C10 (fun _ => none) ["a.pdf", "b.pdf"] "out.pdf" (fun _ _ => rfl)

/-! ## Inverted ranges -/

/-- Claim C9: for every range whose start exceeds its end (such as the
token "5-3"), the page interval is empty: extract copies no pages for that
range and delete excludes no pages for it — the range behaves exactly as
if it were absent — and on its own such a range makes extract produce an
empty output and delete return the document unchanged, with no error in
either case. -/
theorem claim_C9 {α : Type} (pages : List α) (rs1 rs2 : List (Int × Int))
    (s e : Int) (h : e < s) :
    extractRanges pages (rs1 ++ (s, e) :: rs2) = extractRanges pages (rs1 ++ rs2)
    ∧ delete_pages pages (rs1 ++ (s, e) :: rs2) = delete_pages pages (rs1 ++ rs2)
    ∧ extractRanges pages [(s, e)] = some []
    ∧ delete_pages pages [(s, e)] = pages := by
  have hnil : pyRange (s - 1) e = [] := pyRange_eq_nil (by omega)
  have hflat : (rs1 ++ (s, e) :: rs2).flatMap (fun r => pyRange (r.1 - 1) r.2)
      = (rs1 ++ rs2).flatMap (fun r => pyRange (r.1 - 1) r.2) := by
    simp [List.flatMap_append, List.flatMap_cons, hnil]
  have hone : ([(s, e)] : List (Int × Int)).flatMap (fun r => pyRange (r.1 - 1) r.2)
      = [] := by
    simp [List.flatMap_cons, hnil]
  refine ⟨?_, ?_, ?_, ?_⟩
  · rw [extractRanges, extractRanges, hflat]
  · simp only [delete_pages]
    rw [hflat]
  · rw [extractRanges, hone]
    rfl
  · simp only [delete_pages]
    rw [hone]
    simp only [List.not_mem_nil, if_false]
    rw [List.range_eq_range',
      range'_filterMap_get pages pages.length 0 (by omega), List.drop_zero,
      List.take_length]

/-- Witness for C9 at a concrete input: the inverted range 5-3 between the
ranges 1-1 and 2-2 on a 4-page document contributes nothing, and on its
own yields an empty extraction and an unchanged document. -/
theorem claim_C9_witness :
    (extractRanges [1, 2, 3, 4] ([(1, 1)] ++ (5, 3) :: [(2, 2)])
        = extractRanges [1, 2, 3, 4] ([(1, 1)] ++ [(2, 2)])
      ∧ delete_pages [1, 2, 3, 4] ([(1, 1)] ++ (5, 3) :: [(2, 2)])
        = delete_pages [1, 2, 3, 4] ([(1, 1)] ++ [(2, 2)])
      ∧ extractRanges [1, 2, 3, 4] [(5, 3)] = some []
      ∧ delete_pages [1, 2, 3, 4] [(5, 3)] = [1, 2, 3, 4]) :=
  claim_C9 [1, 2, 3, 4] [(1, 1)] [(2, 2)] 5 3 (by decide)

/-! ## Round-trip extraction -/

/-- A list of 1-indexed ranges that covers the pages `a+1 .. n` exactly
once, in increasing order, with no gap and no overlap.  `ExactCover 0 n rs`
says `rs` covers a whole `n`-page document; the single range `1-n` is the
basic instance. -/
inductive ExactCover : Nat → Nat → List (Int × Int) → Prop where
  | nil (n : Nat) : ExactCover n n []
  | cons (a b n : Nat) (s e : Int) (rs : List (Int × Int))
      (hs : s = (a : Int) + 1) (he : e = (b : Int)) (hab : a ≤ b)
      (hrest : ExactCover b n rs) : ExactCover a n ((s, e) :: rs)

theorem ExactCover.le {a n : Nat} {rs : List (Int × Int)}
    (h : ExactCover a n rs) : a ≤ n := by
  induction h with
  | nil n => exact Nat.le_refl n
  | cons a b n s e rs hs he hab hrest ih => omega

theorem ExactCover.start_ge {a n : Nat} {rs : List (Int × Int)}
    (h : ExactCover a n rs) : ∀ r ∈ rs, 1 ≤ r.1 := by
  induction h with
  | nil n => intro r hr; simp at hr
  | cons a b n s e rs hs he hab hrest ih =>
    intro r hr
    rcases List.mem_cons.mp hr with rfl | hr
    · show 1 ≤ s
      omega
    · exact ih r hr

/-- Extracting the single exact range `a+1..b` (1-indexed) from a document
of length at least `b` yields the slice of pages `a..b-1` (0-indexed). -/
theorem extractSpec_segment {α : Type} (pages : List α) (a b : Nat)
    (hb : b ≤ pages.length) :
    (pyRange ((a : Int) + 1 - 1) (b : Int)).filterMap (fun i =>
      if 0 ≤ i ∧ i < (pages.length : Int) then pages.get? i.toNat else none)
      = (pages.drop a).take (b - a) := by
  have h1 : (a : Int) + 1 - 1 = (a : Int) := by ring
  rw [h1, pyRange_natCast a b, List.filterMap_map]
  by_cases hab : a ≤ b
  · rw [← range'_filterMap_get pages (b - a) a (by omega)]
    refine List.filterMap_congr (fun k hk => ?_)
    have hk2 : k < b := by
      have := List.mem_range'_1.mp hk
      omega
    simp only [Function.comp_apply]
    rw [if_pos ⟨by omega, by omega⟩]
    congr 1
  · have hz : b - a = 0 := by omega
    rw [hz]
    simp

/-- Over an exact cover of pages `a+1..length`, the extraction spec
reproduces the tail of the document from index `a` on. -/
theorem extractSpec_exactCover {α : Type} (pages : List α) :
    ∀ {a n : Nat} {rs : List (Int × Int)}, ExactCover a n rs →
      n = pages.length → extractSpec pages rs = pages.drop a := by
  intro a n rs h
  induction h with
  | nil m =>
    intro hm
    subst hm
    simp [extractSpec, List.drop_length]
  | cons a b n s e rs hs he hab hrest ih =>
    intro hn
    subst hn hs he
    have hb : b ≤ pages.length := hrest.le
    rw [extractSpec, List.flatMap_cons, ← extractSpec,
      extractSpec_segment pages a b hb, ih rfl]
    have hsum : a + (b - a) = b := by omega
    calc (pages.drop a).take (b - a) ++ pages.drop b
        = (pages.drop a).take (b - a) ++ (pages.drop a).drop (b - a) := by
          rw [List.drop_drop, hsum]
      _ = pages.drop a := List.take_append_drop _ _

/-- Claim C8 (amended): extract applied with ranges that cover the full
document exactly once, in increasing order — in particular the single
range `1-totalPages` — produces an output whose pages equal the source's
pages in the same order and count (round-trip). -/
theorem claim_C8 {α : Type} (pages : List α) (ranges : List (Int × Int))
    (h : ExactCover 0 pages.length ranges) :
    extractRanges pages ranges = some pages := by
  rw [extractRanges_eq_spec pages ranges h.start_ge,
    extractSpec_exactCover pages h rfl, List.drop_zero]

/-- Witness for C8 at a concrete input: the ordered exact cover 1-2, 3-3
of a 3-page document reproduces it; so does the single range 1-3. -/
theorem claim_C8_witness :
    extractRanges [5, 6, 7] [(1, 2), (3, 3)] = some [5, 6, 7] :=
  claim_C8 [5, 6, 7] [(1, 2), (3, 3)]
    (ExactCover.cons 0 2 3 1 2 _ (by decide) (by decide) (by decide)
      (ExactCover.cons 2 3 3 3 3 _ (by decide) (by decide) (by decide)
        (ExactCover.nil 3)))

/-- Counterexample to C8 as stated: covering ranges that overlap, or cover
out of order, do not reproduce the document — the ranges 1-1, 1-1 cover the
one-page document `[7]` yet extract to `[7, 7]`, and the ranges 2-2, 1-1
cover `[7, 8]` yet extract to `[8, 7]`. -/
theorem claim_C8_cex :
    extractRanges [7] [(1, 1), (1, 1)] = some [7, 7]
    ∧ extractRanges [7, 8] [(2, 2), (1, 1)] = some [8, 7] := by
  decide

/-! ## Splitting -/

/-- Reading a list at the integer casts of `a, a+1, ..., a+m-1` with Python
indexing succeeds and yields the slice, provided the indices stay in
range. -/
theorem range'_cast_mapM_get {α : Type} (l : List α) :
    ∀ (m a : Nat), a + m ≤ l.length →
      ((List.range' a m).map (fun (k : Nat) => (k : Int))).mapM
          (fun n => pyListGet l n)
        = some ((l.drop a).take m) := by
  intro m
  induction m with
  | zero => intro a _; rfl
  | succ m ih =>
    intro a h
    have ha : a < l.length := by omega
    have hcast : ((a : Int)).toNat = a := by omega
    rw [List.range'_succ, List.map_cons, List.mapM_cons,
      pyListGet_nonneg l (by omega : (0 : Int) ≤ (a : Int)), hcast,
      List.get?_eq_get ha, ih (a + 1) (by omega),
      List.drop_eq_get_cons ha, List.take_succ_cons]
    rfl

/-- A 0-based part number below the number of parts starts strictly inside
the document. -/
theorem part_start_lt (p len i : Nat) (hp : 0 < p)
    (hi : i < (len + p - 1) / p) : i * p < len := by
  rcases Nat.eq_zero_or_pos len with hlen | hlen
  · subst hlen
    rw [Nat.zero_add, Nat.div_eq_of_lt (by omega)] at hi
    omega
  · have h1 : (i + 1) * p ≤ ((len + p - 1) / p) * p :=
      Nat.mul_le_mul_right p hi
    have h2 : ((len + p - 1) / p) * p ≤ len + p - 1 := Nat.div_mul_le_self _ _
    have h3 : (i + 1) * p = i * p + p := by ring
    omega

/-- Claim C5: for every document and every `pagesPerPart > 0`, split
produces exactly `ceil(totalPages / pagesPerPart)` output files, where
part `i` (0-based) contains the pages with 0-indexed numbers in
`[i*pagesPerPart, min((i+1)*pagesPerPart, totalPages))` — the slice
`(pages.drop (i*pp)).take pp` — and is named `"<basename>_part<i+1>.pdf"`. -/
theorem claim_C5 {α : Type} (pages : List α) (pages_per_part : Int)
    (base_name : String) (h : 0 < pages_per_part) :
    split_pdf pages pages_per_part base_name
      = some ((List.range (pages.length ⌈/⌉ pages_per_part.toNat)).map
          (fun i => (base_name ++ "_part" ++ toString (i + 1) ++ ".pdf",
            (pages.drop (i * pages_per_part.toNat)).take pages_per_part.toNat))) := by
  set p : Nat := pages_per_part.toNat with hpdef
  have hp : 0 < p := by omega
  have hpp : pages_per_part = (p : Int) := by omega
  set len : Nat := pages.length with hlendef
  set N : Nat := (len + p - 1) / p with hNdef
  have hceil : len ⌈/⌉ p = N := Nat.ceilDiv_eq_add_pred_div len p
  have hnum : Int.fdiv ((len : Int) + pages_per_part - 1) pages_per_part = (N : Int) := by
    rw [hpp, Int.fdiv_eq_ediv _ (by omega)]
    have hcast : (len : Int) + (p : Int) - 1 = ((len + p - 1 : Nat) : Int) := by
      omega
    rw [hcast, ← Int.ofNat_ediv]
  rw [split_pdf, if_neg (by omega : ¬ pages_per_part = 0)]
  simp only [← hlendef, hnum, Int.toNat_natCast, hceil]
  refine mapM_eq_some_map (fun i hi => ?_)
  have hiN : i < N := List.mem_range.mp hi
  have hstart : i * p < len := part_start_lt p len i hp hiN
  have hA : (i : Int) * pages_per_part = ((i * p : Nat) : Int) := by
    rw [hpp]
    push_cast
    ring
  have hB : min (((i : Int) + 1) * pages_per_part) (len : Int)
      = ((min ((i + 1) * p) len : Nat) : Int) := by
    rw [hpp, Nat.cast_min]
    push_cast
    ring_nf
  rw [hA, hB, pyRange_natCast,
    range'_cast_mapM_get pages (min ((i + 1) * p) len - i * p) (i * p)
      (by omega)]
  have htake : (pages.drop (i * p)).take (min ((i + 1) * p) len - i * p)
      = (pages.drop (i * p)).take p := by
    refine List.take_eq_take.mpr ?_
    rw [List.length_drop]
    have h3 : (i + 1) * p = i * p + p := by ring
    omega
  rw [htake]
  rfl

/-- Witness for C5 at a concrete input: a 10-page document split with 4
pages per part yields 3 files, named part1..part3, with 4, 4 and 2 pages
respectively. -/
theorem claim_C5_witness :
    split_pdf [1, 2, 3, 4, 5, 6, 7, 8, 9, 10] 4 "doc"
      = some [("doc_part1.pdf", [1, 2, 3, 4]), ("doc_part2.pdf", [5, 6, 7, 8]),
          ("doc_part3.pdf", [9, 10])] :=
  (claim_C5 [1, 2, 3, 4, 5, 6, 7, 8, 9, 10] 4 "doc" (by decide)).trans (by decide)

/-! ## Compression presets -/

/-- Claim C6: compress selects the presets prepress, printer, ebook,
screen, ebook for levels 1-5 respectively (index 3 of the command line is
the `-dPDFSETTINGS` flag); level 5 additionally splices the
duplicate-image-detection and 150-DPI downsampling flags into the command
line before the preset flag, which then sits at index 10; and any level
outside 1-5 falls back to the level-3 (ebook) command with a printed
warning instead of a failure. -/
theorem claim_C6 (input_pdf output_pdf : String) (power : Int) :
    (compress_cmd input_pdf output_pdf 1).get? 3 = some "-dPDFSETTINGS=/prepress"
    ∧ (compress_cmd input_pdf output_pdf 2).get? 3 = some "-dPDFSETTINGS=/printer"
    ∧ (compress_cmd input_pdf output_pdf 3).get? 3 = some "-dPDFSETTINGS=/ebook"
    ∧ (compress_cmd input_pdf output_pdf 4).get? 3 = some "-dPDFSETTINGS=/screen"
    ∧ compress_cmd input_pdf output_pdf 5
      = (compress_cmd input_pdf output_pdf 3).take 3 ++ power5Flags
        ++ (compress_cmd input_pdf output_pdf 3).drop 3
    ∧ (compress_cmd input_pdf output_pdf 5).get? 10 = some "-dPDFSETTINGS=/ebook"
    ∧ (power ≠ 1 ∧ power ≠ 2 ∧ power ≠ 3 ∧ power ≠ 4 ∧ power ≠ 5 →
        compress_cmd input_pdf output_pdf power
          = compress_cmd input_pdf output_pdf 3) := by
  refine ⟨rfl, rfl, rfl, rfl, rfl, rfl, ?_⟩
  rintro ⟨h1, h2, h3, h4, h5⟩
  simp [compress_cmd, quality_map, h1, h2, h3, h4, h5]

/-! ## Error boundaries -/

/-- A boundary result is always either the success message or a printed
error message. -/
theorem runBoundary_cases {α : Type} (success : String) (body : Except String α) :
    runBoundary success body = success
    ∨ ∃ e, runBoundary success body = "Error: " ++ e := by
  cases body with
  | ok a => exact Or.inl rfl
  | error e => exact Or.inr ⟨e, rfl⟩

/-- Claim C7: every operation (extract, merge, delete, split, compress)
catches any failure at its own boundary and reports a human-readable
message; no exception propagates out of the operation to its caller, which
learns success or failure only from a displayed message string.  In the
embedding each boundary function is total and String-valued — an escaping
exception has no representation in its type — and every possible result is
either the operation's success message or one of its printed error
messages. -/
theorem claim_C7 (α : Type) :
    (∀ (fs : String → Option (List α)) (input_pdf output_pdf : String)
        (page_ranges : List String),
      extract_run fs input_pdf output_pdf page_ranges
          = "Success: Pages extracted to " ++ output_pdf
        ∨ ∃ e, extract_run fs input_pdf output_pdf page_ranges = "Error: " ++ e)
    ∧ (∀ (fs : String → Option (List α)) (input_files : List String)
        (output_pdf : String),
      merge_run fs input_files output_pdf
          = "Success: Files merged into " ++ output_pdf
        ∨ ∃ e, merge_run fs input_files output_pdf = "Error: " ++ e)
    ∧ (∀ (fs : String → Option (List α)) (input_pdf output_pdf : String)
        (page_ranges_to_delete : List String),
      delete_run fs input_pdf output_pdf page_ranges_to_delete
          = "Success: Pages deleted, saved to " ++ output_pdf
        ∨ ∃ e, delete_run fs input_pdf output_pdf page_ranges_to_delete
            = "Error: " ++ e)
    ∧ (∀ (fs : String → Option (List α)) (input_pdf : String)
        (pages_per_part : Int) (base_name : String),
      split_run fs input_pdf pages_per_part base_name
          = "Success: PDF split into parts"
        ∨ ∃ e, split_run fs input_pdf pages_per_part base_name = "Error: " ++ e)
    ∧ (∀ (input_size output_size : Option Nat) (input_pdf : String),
      (∃ o n, compress_run input_size output_size input_pdf = compress_report o n)
        ∨ compress_run input_size output_size input_pdf
            = "Error: Input file " ++ input_pdf ++ " does not exist"
        ∨ compress_run input_size output_size input_pdf
            = "Error: Output file was not created") := by
  refine ⟨fun fs i o rs => runBoundary_cases _ _,
    fun fs files o => runBoundary_cases _ _,
    fun fs i o rs => runBoundary_cases _ _,
    fun fs i pp b => runBoundary_cases _ _,
    fun input_size output_size i => ?_⟩
  cases input_size with
  | none => exact Or.inr (Or.inl rfl)
  | some orig =>
    cases output_size with
    | none => exact Or.inr (Or.inr rfl)
    | some ns => exact Or.inl ⟨orig, ns, rfl⟩

end PdfOps
